import Mathlib

/-!
# Latent Loop — verification of the incremental document-update pipeline

Shallow embedding of the client-side update pipeline of the Latent Loop
repository (frontend/hooks/useLatentLoop.ts, frontend/hooks/useRecording.ts,
frontend/components/MarkdownRenderer.tsx, backend/static/js/rendering.js,
version2/static/js/api.js), together with theorems settling the spec claims.

Strings are modelled as `List Char` (`String.data` at the boundary); JS
falsy-string tests (`!s`) become emptiness tests; `x || null` becomes
`orNull`; `JSON.parse` inside try/catch is modelled as an `Option` input;
`setTimeout` becomes explicit timer records carried in the state, fired by
an explicit event.
-/

namespace LatentLoop

/-! ## Basic character-list utilities (semantics of the JS string operations) -/

/-- Whitespace test, the model of the regex class `\s` and of `trim`'s
whitespace notion (the sources only ever meet ASCII whitespace). -/
def isWsChar (c : Char) : Bool := c.isWhitespace

/-- JS `trim`: drop leading and trailing whitespace. -/
def trimChars (l : List Char) : List Char :=
  ((l.dropWhile isWsChar).reverse.dropWhile isWsChar).reverse

/-- Split a character list into lines at `'\n'`, the line structure the
`m`-flagged regexes of the sources operate on. -/
def splitLines : List Char → List (List Char)
  | [] => [[]]
  | c :: cs =>
    if c = '\n' then [] :: splitLines cs
    else
      match splitLines cs with
      | [] => [[c]]
      | l :: ls => (c :: l) :: ls

/-- Test whether `hay` starts with `pre` (JS `String.prototype.startsWith`). -/
def startsWithL : List Char → List Char → Bool
  | _, [] => true
  | [], _ :: _ => false
  | c :: cs, p :: ps => c = p && startsWithL cs ps

/-- Test whether `needle` occurs as a contiguous substring of `hay`
(JS `indexOf(...) !== -1` / `includes`). -/
def containsSub : List Char → List Char → Bool
  | hay, needle =>
    startsWithL hay needle ||
      match hay with
      | [] => false
      | _ :: cs => containsSub cs needle

/-- JS `toLowerCase` on the character sequence. -/
def toLowerL (l : List Char) : List Char := l.map Char.toLower

/-! ## Section Index: heading recognition and new-section detection

Embeds `detectNewSection` of `useLatentLoop.ts` (identical copy in
`rendering.js`): the regex `/^#{1,3}\s+(.+)$/gm` applied per line, pushing
`match[1].trim()`. -/

/-- One line against `^#{1,3}\s+(.+)$`: a run of 1–3 `'#'`, then at least
one whitespace character, then at least one further character; the captured
group, trimmed, is the heading label. -/
def parseHeaderLine (line : List Char) : Option (List Char) :=
  let hashes := line.takeWhile (· = '#')
  let rest := line.dropWhile (· = '#')
  if 1 ≤ hashes.length ∧ hashes.length ≤ 3 ∧
      rest.head?.any isWsChar = true ∧ 2 ≤ rest.length then
    some (trimChars (rest.dropWhile isWsChar))
  else none

/-- All trimmed heading labels of a document, in document order (the
`while ((match = headerRegex.exec(...)))` loops). -/
def extractHeaders (content : List Char) : List (List Char) :=
  (splitLines content).filterMap parseHeaderLine

/-- The `for (const header of newHeaders) if (!oldHeaders.includes(header))`
loop of `detectNewSection`. -/
def detectNewSectionLoop (oldHeaders : List (List Char)) :
    List (List Char) → Option (List Char)
  | [] => none
  | h :: hs =>
    if oldHeaders.contains h then detectNewSectionLoop oldHeaders hs
    else some h

/-- The source function `detectNewSection(oldContent, newContent)`: the first heading of the new
content absent from the old content's headings, else `null`. -/
def detectNewSection (oldContent newContent : List Char) : Option (List Char) :=
  detectNewSectionLoop (extractHeaders oldContent) (extractHeaders newContent)

/-! ## Fuzzy header matching

Embeds `findHeaderElement` of `rendering.js` and the header-matching
`useEffect` of `MarkdownRenderer.tsx`. Rendered headers are modelled as the
list of their text contents, in document order; the selected DOM element is
identified by its index. -/

/-- The `toLowerCase().trim()` normalisation applied to both the search string
and each header text. -/
def normalizeL (l : List Char) : List Char := trimChars (toLowerL l)

/-- One header's score in `findHeaderElement` (both inputs already
normalised): 100 exact, 50 when either string is a prefix of the other,
10 when either is a substring of the other, 0 otherwise. -/
def fuzzyScore (search text : List Char) : Int :=
  if text = search then 100
  else if startsWithL text search || startsWithL search text then 50
  else if containsSub text search || containsSub search text then 10
  else 0

/-- The `headers.forEach` accumulation of `findHeaderElement`: `bestScore`
starts at `-1`, and only a strictly greater score replaces the best match,
so the first header of a maximal score is kept. `i` is the index of the
next header. -/
def findHeaderLoop (search : List Char) :
    List (List Char) → Nat → Int → Option Nat → Option Nat × Int
  | [], _, bestScore, best => (best, bestScore)
  | h :: hs, i, bestScore, best =>
    let score := fuzzyScore search (normalizeL h)
    if bestScore < score then findHeaderLoop search hs (i + 1) score (some i)
    else findHeaderLoop search hs (i + 1) bestScore best

/-- The source function `findHeaderElement(sectionName)` over the rendered headers: the selected
header's index, or `none` when the section name is falsy or no header scored
above zero. -/
def findHeaderElement (sectionName : List Char) (headers : List (List Char)) :
    Option Nat :=
  if sectionName = [] then none
  else
    let search := normalizeL sectionName
    let r := findHeaderLoop search headers 0 (-1) none
    if 0 < r.2 then r.1 else none

/-- The per-header `isMatch` test of `MarkdownRenderer.tsx` (both inputs
already normalised): exact, or prefix either way, or substring either way. -/
def rendererIsMatch (search text : List Char) : Bool :=
  if text = search then true
  else if startsWithL text search || startsWithL search text then true
  else if containsSub text search || containsSub search text then true
  else false

/-- Indices of every header the `MarkdownRenderer.tsx` effect adds the
`glow-green` class to: the loop highlights each matching header, with no
best-score selection. -/
def rendererHighlighted (animatingSection : List Char)
    (headers : List (List Char)) : List Nat :=
  let search := normalizeL animatingSection
  (List.range headers.length).filter fun i =>
    match headers.get? i with
    | some t => rendererIsMatch search (normalizeL t)
    | none => false

/-! ## Data model of the SSE client (types.ts) -/

/-- Record `PendingUpdate` of `types.ts` (the fields the client logic reads). -/
structure PendingUpdate where
  id : List Char
  transcript : List Char
deriving DecidableEq

/-- Record `TranscriptItem` of `types.ts`. -/
structure TranscriptItem where
  text : List Char
  timestamp : List Char
deriving DecidableEq

/-- Record `ChangeInfo` of `types.ts` (the field the client logic reads). -/
structure ChangeInfo where
  target_section : Option (List Char)
deriving DecidableEq

/-- The `pending` field of an SSE payload: a list (in `init`) or a single
record (in `pending_update`); `Array.isArray` discriminates. -/
inductive PendingField where
  | list (l : List PendingUpdate)
  | single (p : PendingUpdate)
deriving DecidableEq

/-- A parsed SSE payload (`SSEData` of `types.ts`); absent JSON fields are
`none`.  `sectionField` stands for the `section` field (a Lean keyword). -/
structure SSEData where
  type : List Char
  content : Option (List Char)
  transcript : Option (List TranscriptItem)
  pending : Option PendingField
  pending_id : Option (List Char)
  sectionField : Option (List Char)
  change_info : Option ChangeInfo
deriving DecidableEq

/-- An entry of the client replay queue (`UpdateQueueItem` of
`useLatentLoop.ts`). -/
structure UpdateQueueItem where
  oldContent : List Char
  newContent : List Char
  sectionName : Option (List Char)
  timestamp : Nat
deriving DecidableEq

/-- The two `setTimeout` callbacks of `processNextUpdate`: the 500 ms
animation-end callback (whose closure captures the drained item) and the
100 ms inter-item gap callback (which re-runs `processNextUpdate`). -/
inductive TimerKind where
  | glowEnd (item : UpdateQueueItem)
  | gap
deriving DecidableEq

/-- A pending `setTimeout`: its absolute expiry time and its callback. -/
structure Timer where
  fireAt : Nat
  kind : TimerKind
deriving DecidableEq

/-- The whole client-side state of one subscriber: the React state and refs
of `useLatentLoop.ts`, plus the pending timers and a clock (`Date.now()`). -/
structure ClientState where
  markdownContent : List Char
  displayedContent : List Char
  pendingUpdates : List PendingUpdate
  transcript : List TranscriptItem
  updateQueue : List UpdateQueueItem
  isProcessing : Bool
  animatingSection : Option (List Char)
  timers : List Timer
  now : Nat
deriving DecidableEq

/-! ## The Client Replay Queue (useLatentLoop.ts lines 54–108) -/

/-- The source function `processNextUpdate`: returns unchanged while processing or on an empty
queue; otherwise shifts the head item, swaps the displayed content, and
either starts the 500 ms animation (`if (update.sectionName)` — truthy, so
neither `null` nor the empty string) or finishes at once, scheduling the
100 ms gap timer when more items wait. -/
def processNextUpdate (s : ClientState) : ClientState :=
  if s.isProcessing = true ∨ s.updateQueue = [] then s
  else
    match s.updateQueue with
    | [] => s
    | u :: rest =>
      match u.sectionName with
      | some sec =>
        if sec = [] then
          { s with
            updateQueue := rest
            isProcessing := false
            markdownContent := u.newContent
            displayedContent := u.newContent
            timers :=
              s.timers ++
                if rest = [] then [] else [⟨s.now + 100, TimerKind.gap⟩] }
        else
          { s with
            updateQueue := rest
            isProcessing := true
            markdownContent := u.newContent
            animatingSection := some sec
            timers := s.timers ++ [⟨s.now + 500, TimerKind.glowEnd u⟩] }
      | none =>
        { s with
          updateQueue := rest
          isProcessing := false
          markdownContent := u.newContent
          displayedContent := u.newContent
          timers :=
            s.timers ++ if rest = [] then [] else [⟨s.now + 100, TimerKind.gap⟩] }

/-- The body of the 500 ms `setTimeout` callback in `processNextUpdate`
(equally `finishProcessing` after `animateSection` in `rendering.js`):
clear the animation, release the queue, record the drained item's content
as the displayed baseline, and schedule the 100 ms gap when items wait. -/
def fireGlowEnd (s : ClientState) (u : UpdateQueueItem) : ClientState :=
  { s with
    animatingSection := none
    isProcessing := false
    displayedContent := u.newContent
    timers :=
      s.timers ++
        if s.updateQueue = [] then [] else [⟨s.now + 100, TimerKind.gap⟩] }

/-- The source function `scheduleFileUpdate`: append the event to the queue, then try to drain. -/
def scheduleFileUpdate (s : ClientState) (oldC newC : List Char)
    (sectionName : Option (List Char)) (ts : Nat) : ClientState :=
  processNextUpdate
    { s with updateQueue := s.updateQueue ++ [⟨oldC, newC, sectionName, ts⟩] }

/-- JS `x || null` on an optional string: `null`, `undefined` and `''`
collapse to `null`. -/
def orNull : Option (List Char) → Option (List Char)
  | some s => if s = [] then none else some s
  | none => none

/-- The literal string `'None'` the handler screens out. -/
def noneLit : List Char := "None".data

/-- The section-resolution chain of `handleFileUpdated`:
`data.section || null`, re-assigned from `data.change_info?.target_section`
when falsy or `'None'`, re-assigned from `detectNewSection` when still falsy
or `'None'`. -/
def resolveSectionName (sectionField : Option (List Char))
    (changeInfo : Option ChangeInfo) (oldC newC : List Char) :
    Option (List Char) :=
  let s1 := orNull sectionField
  let s2 :=
    if s1 = none ∨ s1 = some noneLit then
      orNull (match changeInfo with
        | some ci => ci.target_section
        | none => none)
    else s1
  if s2 = none ∨ s2 = some noneLit then detectNewSection oldC newC else s2

/-- The source function `handleFileUpdated(data)`: old content is the displayed baseline (or the
React state when the baseline is empty), new content is `data.content || ''`,
the section name is resolved, and the update is queued. -/
def handleFileUpdated (s : ClientState) (d : SSEData) (ts : Nat) : ClientState :=
  let oldC := if s.displayedContent = [] then s.markdownContent else s.displayedContent
  let newC := (orNull d.content).getD []
  let sectionName := resolveSectionName d.sectionField d.change_info oldC newC
  scheduleFileUpdate s oldC newC sectionName ts

/-- The `evtSource.onmessage` dispatch: `JSON.parse` is modelled as the
`Option SSEData` argument — the catch branch (`none`) only logs, so the
state is returned unchanged and the handler keeps running. -/
def onMessage (s : ClientState) (msg : Option SSEData) (ts : Nat) : ClientState :=
  match msg with
  | none => s
  | some d =>
    if d.type = "init".data then
      { s with
        markdownContent := (orNull d.content).getD []
        displayedContent := (orNull d.content).getD []
        pendingUpdates :=
          match d.pending with
          | some (PendingField.list l) => l
          | _ => []
        transcript :=
          match d.transcript with
          | some t => t
          | none => s.transcript }
    else if d.type = "file_updated".data then handleFileUpdated s d ts
    else if d.type = "pending_update".data then
      match d.pending with
      | some (PendingField.single p) =>
        { s with pendingUpdates := s.pendingUpdates ++ [p] }
      | _ => s
    else if d.type = "pending_resolved".data then
      { s with
        pendingUpdates :=
          s.pendingUpdates.filter fun p => ¬ some p.id = d.pending_id }
    else s

/-- One external stimulus of the subscriber: an SSE message arriving at
time `t` (with its parse result), or the JS event loop firing the pending
timer stored at index `i`. -/
inductive ClientEvent where
  | message (t : Nat) (msg : Option SSEData)
  | fire (i : Nat)
deriving DecidableEq

/-- Apply one stimulus: messages run `onmessage` with the clock advanced;
`fire i` removes the timer and runs its callback at its expiry time. -/
def applyEvent (s : ClientState) (e : ClientEvent) : ClientState :=
  match e with
  | ClientEvent.message t msg => onMessage { s with now := t } msg t
  | ClientEvent.fire i =>
    match s.timers.get? i with
    | none => s
    | some tm =>
      let s' := { s with timers := s.timers.eraseIdx i, now := tm.fireAt }
      match tm.kind with
      | TimerKind.glowEnd u => fireGlowEnd s' u
      | TimerKind.gap => processNextUpdate s'

/-- Run a sequence of stimuli. -/
def runEvents (s : ClientState) (es : List ClientEvent) : ClientState :=
  es.foldl applyEvent s

/-- Real-time admissibility of one stimulus: time never runs backwards, a
message cannot arrive past an expired-but-unfired timer, and a timer fires
exactly at its expiry, earliest first. -/
def validEventB (s : ClientState) (e : ClientEvent) : Bool :=
  match e with
  | ClientEvent.message t _ =>
    decide (s.now ≤ t) && s.timers.all fun tm => decide (t ≤ tm.fireAt)
  | ClientEvent.fire i =>
    match s.timers.get? i with
    | none => false
    | some tm =>
      decide (s.now ≤ tm.fireAt) &&
        s.timers.all fun tm' => decide (tm.fireAt ≤ tm'.fireAt)

/-- Real-time admissibility of a whole stimulus sequence. -/
def validTraceB (s : ClientState) : List ClientEvent → Bool
  | [] => true
  | e :: es => validEventB s e && validTraceB (applyEvent s e) es

/-- The state of a freshly mounted subscriber. -/
def initialClient : ClientState :=
  { markdownContent := []
    displayedContent := []
    pendingUpdates := []
    transcript := []
    updateQueue := []
    isProcessing := false
    animatingSection := none
    timers := []
    now := 0 }

/-! ## Replay-queue invariant -/

/-- Is this timer the animation-end callback? -/
def isGlowTimer (tm : Timer) : Bool :=
  match tm.kind with
  | TimerKind.glowEnd _ => true
  | TimerKind.gap => false

/-- Number of pending animation-end callbacks. -/
def glowCount (s : ClientState) : Nat := (s.timers.filter isGlowTimer).length

/-- The reachable-state invariant of the replay queue: outside a drain the
queue is released with no animation and no animation timer; during a drain
exactly one animation-end timer is pending and one section is animating. -/
def ReplayInv (s : ClientState) : Prop :=
  (s.isProcessing = false → glowCount s = 0 ∧ s.animatingSection = none) ∧
  (s.isProcessing = true → glowCount s = 1 ∧ s.animatingSection ≠ none)

/-- Does stimulus `e` fire a pending animation-end timer of `s`? -/
def firesGlowEndB (s : ClientState) (e : ClientEvent) : Bool :=
  match e with
  | ClientEvent.message _ _ => false
  | ClientEvent.fire i =>
    match s.timers.get? i with
    | some tm => isGlowTimer tm
    | none => false

/-! ## Match Classifier

Modelled from the spec: the Match Classifier (spec §4.2, the "95% certainty
rule" of the project README) lives in the backend `app.py`, which is not
among the sources; the definitions below follow the spec's words: a
similarity score per section, hedge/retraction phrases forcing `Uncertain`,
then the `T_confident` / `T_floor` threshold ladder. -/

/-- A classifier decision (spec §3). -/
inductive Decision where
  | update (sectionHeading : List Char)
  | create (newHeading : List Char)
  | uncertain (reason : List Char) (candidateHeading : Option (List Char))
      (candidateSimilarity : Option Rat)
deriving DecidableEq

/-- Modelled from the spec: the explicit hedge/retraction patterns and
generic hedge words of spec §4.2. -/
def hedgePhrases : List (List Char) :=
  ["wait no".data, "actually wait".data, "scratch that".data,
    "nevermind".data, "maybe".data, "possibly".data]

/-- Modelled from the spec: a chunk contains a recognised hedge/retraction
phrase (matched case-insensitively on the chunk text). -/
def containsHedge (chunk : List Char) : Bool :=
  hedgePhrases.any fun p => containsSub (toLowerL chunk) p

/-- Modelled from the spec: `best = argmax` over the per-section similarity
scores (first on ties). -/
def bestOf : List (List Char × Rat) → Option (List Char × Rat)
  | [] => none
  | x :: xs =>
    match bestOf xs with
    | none => some x
    | some y => if x.2 < y.2 then some y else some x

/-- Modelled from the spec: the Match Classifier of spec §4.2. `scored`
pairs each existing section heading with its similarity to the chunk;
`inferredHeading` is the external service's heading suggestion for a new
section. Hedge language forces `Uncertain` before any score is consulted. -/
def classify (tConfident tFloor : Rat) (chunk : List Char)
    (scored : List (List Char × Rat)) (inferredHeading : List Char) : Decision :=
  if containsHedge chunk then
    Decision.uncertain "hedge/retraction language detected".data
      ((bestOf scored).map Prod.fst) ((bestOf scored).map Prod.snd)
  else
    match bestOf scored with
    | none => Decision.create inferredHeading
    | some best =>
      if tConfident ≤ best.2 then Decision.update best.1
      else if best.2 < tFloor then Decision.create inferredHeading
      else Decision.uncertain "ambiguous section match".data (some best.1) (some best.2)

/-- Modelled from the spec: control flow of spec §2 — the Document Rewriter
runs immediately exactly for `Update`/`Create` decisions; an `Uncertain`
decision is stored as a PendingUpdate instead, so no rewrite is
auto-committed. -/
def autoCommits : Decision → Bool
  | Decision.update _ => true
  | Decision.create _ => true
  | Decision.uncertain _ _ _ => false

/-! ## Audio recording sessions (useRecording.ts lines 59–78)

Audio blobs are modelled by their byte sizes; a request to the audio
endpoint is recorded as `(blob size, chunk number)`. -/

/-- The observable recorder state of one recording session cycle. -/
structure RecorderState where
  audioChunks : List Nat
  chunkCounter : Nat
  submitted : List (Nat × Nat)
deriving DecidableEq

/-- Handler `mediaRecorder.ondataavailable`: keep a data blob only when its size is
positive. -/
def onDataAvailable (s : RecorderState) (size : Nat) : RecorderState :=
  if 0 < size then { s with audioChunks := s.audioChunks ++ [size] } else s

/-- Handler `mediaRecorder.onstop`: with at least one captured blob, bump the chunk
counter, assemble the blob (its size is the total), submit it only when the
size exceeds 1000 bytes, and clear the capture buffer. -/
def mediaRecorderOnStop (s : RecorderState) : RecorderState :=
  if s.audioChunks = [] then s
  else
    let blobSize := s.audioChunks.sum
    { audioChunks := []
      chunkCounter := s.chunkCounter + 1
      submitted :=
        s.submitted ++
          if 1000 < blobSize then [(blobSize, s.chunkCounter + 1)] else [] }

/-! ## Named scenario values and claim-specific definitions -/

/-- The event's section field or `change_info.target_section` is actually
used only when it is present, non-empty, and not the literal `'None'`. -/
def usableB : Option (List Char) → Bool
  | some s => !(decide (s = []) || decide (s = noneLit))
  | none => false

/-- Projection `data.change_info?.target_section`. -/
def targetOf : Option ChangeInfo → Option (List Char)
  | some ci => ci.target_section
  | none => none

/-- Events of the C1 claim: `file_updated` (ChangeEvent) messages plus the
subscriber's own timer expiries. -/
def isReplayEventB : ClientEvent → Bool
  | ClientEvent.fire _ => true
  | ClientEvent.message _ (some d) => decide (d.type = "file_updated".data)
  | ClientEvent.message _ none => false

/-- A `file_updated` event carrying section `A`. -/
def fileUpdatedA : SSEData :=
  { type := "file_updated".data
    content := some "# A\nx".data
    transcript := none
    pending := none
    pending_id := none
    sectionField := some "A".data
    change_info := none }

/-- A `file_updated` event carrying section `B`. -/
def fileUpdatedB : SSEData :=
  { fileUpdatedA with
    content := some "# A\nx\n# B\ny".data
    sectionField := some "B".data }

/-- A `file_updated` event carrying section `C`. -/
def fileUpdatedC : SSEData :=
  { fileUpdatedA with
    content := some "# A\nx\n# B\ny\n# C\nz".data
    sectionField := some "C".data }

/-- A time-admissible stimulus sequence: event `A` at 0 ms (drains at once,
animating until 500 ms), event `B` at 10 ms (queued), the animation-end
timer at 500 ms (schedules the gap timer for 600 ms), and event `C`
arriving at 550 ms. -/
def gapTrace : List ClientEvent :=
  [ClientEvent.message 0 (some fileUpdatedA),
    ClientEvent.message 10 (some fileUpdatedB),
    ClientEvent.fire 0,
    ClientEvent.message 550 (some fileUpdatedC)]

/-- The item the C2 witness drains. -/
def drainWitnessItem : UpdateQueueItem :=
  UpdateQueueItem.mk [] "# A\nx".data (some "A".data) 0

/-- A subscriber state with one queued item and no drain in progress. -/
def drainWitnessState : ClientState :=
  { initialClient with updateQueue := [drainWitnessItem] }

instance (s : ClientState) : Decidable (ReplayInv s) := by
  unfold ReplayInv; infer_instance

/-! ## Helper lemmas -/

lemma containsL_iff_mem {l : List (List Char)} {a : List Char} :
    l.contains a = true ↔ a ∈ l :=
  ⟨List.mem_of_elem_eq_true, List.elem_eq_true_of_mem⟩

lemma detectNewSectionLoop_eq_none (old : List (List Char)) :
    ∀ hs, detectNewSectionLoop old hs = none ↔ ∀ h ∈ hs, h ∈ old := by
  intro hs
  induction hs with
  | nil => simp [detectNewSectionLoop]
  | cons h hs ih =>
    by_cases hmem : old.contains h
    · simp only [detectNewSectionLoop, if_pos hmem, ih, List.mem_cons]
      constructor
      · intro hall g hg
        rcases hg with rfl | hg
        · exact containsL_iff_mem.mp hmem
        · exact hall g hg
      · intro hall g hg
        exact hall g (Or.inr hg)
    · simp only [detectNewSectionLoop, if_neg hmem]
      constructor
      · intro hc; exact absurd hc (by simp)
      · intro hall
        exact absurd (containsL_iff_mem.mpr (hall h (by simp))) hmem

lemma detectNewSectionLoop_eq_some (old : List (List Char)) :
    ∀ hs h, detectNewSectionLoop old hs = some h →
      ∃ pre post, hs = pre ++ h :: post ∧ h ∉ old ∧ ∀ g ∈ pre, g ∈ old := by
  intro hs
  induction hs with
  | nil => intro h hc; simp [detectNewSectionLoop] at hc
  | cons h0 hs ih =>
    intro h hc
    by_cases hmem : old.contains h0
    · rw [detectNewSectionLoop, if_pos hmem] at hc
      obtain ⟨pre, post, hsplit, hnot, hpre⟩ := ih h hc
      refine ⟨h0 :: pre, post, by simp [hsplit], hnot, ?_⟩
      intro g hg
      rcases List.mem_cons.mp hg with rfl | hg
      · exact containsL_iff_mem.mp hmem
      · exact hpre g hg
    · rw [detectNewSectionLoop, if_neg hmem] at hc
      obtain rfl : h0 = h := by injection hc
      exact ⟨[], hs, rfl, fun hin => hmem (containsL_iff_mem.mpr hin), by simp⟩

lemma dropWhile_idem (p : Char → Bool) (l : List Char) :
    (l.dropWhile p).dropWhile p = l.dropWhile p := by
  induction l with
  | nil => simp
  | cons c cs ih =>
    by_cases hc : p c
    · simp [List.dropWhile, hc, ih]
    · simp [List.dropWhile, hc]

lemma trimChars_dropWhile_ws (l : List Char) :
    trimChars (l.dropWhile isWsChar) = trimChars l := by
  unfold trimChars
  rw [dropWhile_idem]

lemma dropWhile_ws_append (w t : List Char) (hw : ∀ c ∈ w, isWsChar c = true) :
    (w ++ t).dropWhile isWsChar = t.dropWhile isWsChar := by
  induction w with
  | nil => simp
  | cons c cs ih =>
    have hc : isWsChar c = true := hw c (by simp)
    simp only [List.cons_append, List.dropWhile, hc]
    exact ih fun d hd => hw d (by simp [hd])

lemma hashRun_split (k : Nat) (l : List Char)
    (hl : ∀ c, l.head? = some c → ¬ c = '#') :
    (List.replicate k '#' ++ l).takeWhile (· = '#') = List.replicate k '#' ∧
    (List.replicate k '#' ++ l).dropWhile (· = '#') = l := by
  induction k with
  | zero =>
    simp only [List.replicate, List.nil_append]
    cases l with
    | nil => simp
    | cons c cs =>
      have := hl c rfl
      simp [List.takeWhile, List.dropWhile, this]
  | succ k ih =>
    simp only [List.replicate, List.cons_append, List.takeWhile, List.dropWhile]
    simp [ih.1, ih.2]

lemma ws_ne_hash {c : Char} (h : isWsChar c = true) : ¬ c = '#' := by
  intro hc
  subst hc
  simp [isWsChar, Char.isWhitespace] at h

/-! ## Claim C4 -/

/-- Claim C4: For every pair of old and new document texts, `detectNewSection`
returns the first heading, in new-document order, whose trimmed label occurs
as a heading of the new text but not among the old text's trimmed heading
labels, and returns `null` when every heading label of the new text already
occurs among the old text's heading labels. -/
theorem detectNewSection_first_new (oldC newC : List Char) :
    (detectNewSection oldC newC = none ↔
      ∀ h ∈ extractHeaders newC, h ∈ extractHeaders oldC) ∧
    (∀ h, detectNewSection oldC newC = some h →
      ∃ pre post, extractHeaders newC = pre ++ h :: post ∧
        h ∉ extractHeaders oldC ∧ ∀ g ∈ pre, g ∈ extractHeaders oldC) :=
  ⟨detectNewSectionLoop_eq_none _ _,
    fun h hc => detectNewSectionLoop_eq_some _ _ h hc⟩

/-- Witness for C4: on old text `"# A\n"` and new text `"# A\n## B\nx"` the
detector returns `B`, which indeed heads the new text after only old
headings. -/
theorem detectNewSection_first_new_witness :
    ∃ pre post,
      extractHeaders "# A\n## B\nx".data = pre ++ "B".data :: post ∧
      "B".data ∉ extractHeaders "# A\n".data ∧
      ∀ g ∈ pre, g ∈ extractHeaders "# A\n".data :=
  (detectNewSection_first_new "# A\n".data "# A\n## B\nx".data).2 "B".data
    (by decide)

/-! ## Claim C5 -/

/-- Claim C5: A line is recognized as a heading exactly when it begins with
1 to 3 `'#'` characters followed by at least one whitespace character and at
least one further character; a line beginning with 4 or more `'#'`
characters is not recognized; and the heading label is the trimmed remainder
of the line after the `'#'` run and the whitespace. -/
theorem headerLine_recognition (line lbl : List Char) :
    (parseHeaderLine line = some lbl ↔
      ∃ k w t, 1 ≤ k ∧ k ≤ 3 ∧ w ≠ [] ∧ (∀ c ∈ w, isWsChar c = true) ∧
        t ≠ [] ∧ line = List.replicate k '#' ++ (w ++ t) ∧
        lbl = trimChars t) ∧
    (4 ≤ (line.takeWhile (· = '#')).length → parseHeaderLine line = none) := by
  constructor
  · constructor
    · intro hp
      unfold parseHeaderLine at hp
      by_cases hcond : 1 ≤ (line.takeWhile (· = '#')).length ∧
          (line.takeWhile (· = '#')).length ≤ 3 ∧
          (line.dropWhile (· = '#')).head?.any isWsChar = true ∧
          2 ≤ (line.dropWhile (· = '#')).length
      · rw [if_pos hcond] at hp
        obtain ⟨h1, h3, hhead, hlen⟩ := hcond
        rcases hrest : line.dropWhile (· = '#') with _ | ⟨c, cs⟩
        · rw [hrest] at hlen; simp at hlen
        · rw [hrest] at hhead hlen hp
          simp only [List.head?_cons, Option.any_some] at hhead
          have hcs : cs ≠ [] := by
            intro h; rw [h] at hlen; simp at hlen
          refine ⟨(line.takeWhile (· = '#')).length, [c], cs, h1, h3,
            by simp, by simpa using hhead, hcs, ?_, ?_⟩
          · have hrepl :
                line.takeWhile (· = '#') =
                  List.replicate (line.takeWhile (· = '#')).length '#' := by
              apply List.eq_replicate_of_mem
              intro b hb
              simpa using List.mem_takeWhile_imp hb
            calc line = line.takeWhile (· = '#') ++ line.dropWhile (· = '#') :=
                  (List.takeWhile_append_dropWhile _ _).symm
              _ = List.replicate (line.takeWhile (· = '#')).length '#' ++
                    ([c] ++ cs) := by rw [← hrepl, hrest]; simp
          · have hlbl : lbl = trimChars ((c :: cs).dropWhile isWsChar) := by
              injection hp.symm
            rw [hlbl]
            simp only [List.dropWhile, hhead]
            exact trimChars_dropWhile_ws cs
      · rw [if_neg hcond] at hp
        exact absurd hp (by simp)
    · rintro ⟨k, w, t, hk1, hk3, hw0, hw, ht, hline, hlbl⟩
      rcases w with _ | ⟨c, w'⟩
      · exact absurd rfl hw0
      have hc : isWsChar c = true := hw c (by simp)
      have hsplit := hashRun_split k ((c :: w') ++ t) (by
        intro d hd
        simp only [List.cons_append, List.head?_cons, Option.some_inj] at hd
        subst hd
        exact ws_ne_hash hc)
      have hlen : 2 ≤ ((c :: w') ++ t).length := by
        rcases t with _ | ⟨d, t'⟩
        · exact absurd rfl ht
        · simp; omega
      unfold parseHeaderLine
      rw [hline, hsplit.1, hsplit.2]
      rw [if_pos ⟨by simpa using hk1, by simpa using hk3,
        by simp [hc], hlen⟩]
      have hdrop : ((c :: w') ++ t).dropWhile isWsChar = t.dropWhile isWsChar :=
        dropWhile_ws_append (c :: w') t hw
      rw [hdrop, trimChars_dropWhile_ws, hlbl]
  · intro h4
    unfold parseHeaderLine
    rw [if_neg (by omega)]

/-- Witness for C5: `"## Hello "` is recognized with label `Hello`, and
`"####x"` (four hashes) is rejected. -/
theorem headerLine_recognition_witness :
    parseHeaderLine "## Hello ".data = some "Hello".data ∧
    parseHeaderLine "####x".data = none :=
  ⟨(headerLine_recognition "## Hello ".data "Hello".data).1.mpr
      ⟨2, [' '], "Hello ".data, by decide, by decide, by decide, by decide,
        by decide, by decide, by decide⟩,
    (headerLine_recognition "####x".data "".data).2 (by decide)⟩

/-! ## Claim C3 -/

/-- Counterexample to C3 as stated: with no `section` field and
`change_info.target_section = 'None'`, the claim says the present
`target_section` is chosen, but the code screens `'None'` out of the
`target_section` fallback as well and animates the diff-detected heading
`A` instead. -/
theorem resolveSectionName_noneLiteral_cex :
    resolveSectionName none (some ⟨some "None".data⟩) [] "# A\nx".data =
      some "A".data ∧
    ¬ resolveSectionName none (some ⟨some "None".data⟩) [] "# A\nx".data =
        some "None".data := by
  constructor
  · decide
  · decide

/-- Claim C3, amended: The heading chosen for animation follows the priority
order: the event's `section` field when present, non-empty and not the
literal `'None'`; otherwise `change_info.target_section` when present,
non-empty and not the literal `'None'`; otherwise the heading inferred by
diffing the displayed content's headings against the new content's; and when
all three yield nothing, the drained item carries no section, so only the
content swap occurs — the animation state and animation timers are
untouched. -/
theorem resolveSectionName_priority (sf : Option (List Char))
    (ci : Option ChangeInfo) (oldC newC : List Char) :
    (resolveSectionName sf ci oldC newC =
      if usableB sf then sf
      else if usableB (targetOf ci) then targetOf ci
      else detectNewSection oldC newC) ∧
    (∀ (s : ClientState) (u : UpdateQueueItem) (rest : List UpdateQueueItem),
      s.isProcessing = false → s.updateQueue = u :: rest →
      u.sectionName = none →
      (processNextUpdate s).markdownContent = u.newContent ∧
      (processNextUpdate s).animatingSection = s.animatingSection ∧
      glowCount (processNextUpdate s) = glowCount s) := by
  constructor
  · have htgt : ∀ (o : Option (List Char)),
        (if (orNull o = none ∨ orNull o = some noneLit) then
          detectNewSection oldC newC
        else orNull o) =
          if usableB o then o else detectNewSection oldC newC := by
      intro o
      rcases o with _ | s
      · simp [orNull, usableB]
      · by_cases hnil : s = []
        · subst hnil; simp [orNull, usableB]
        · by_cases hN : s = noneLit
          · subst hN; simp [orNull, usableB]
          · simp [orNull, usableB, hnil, hN]
    rcases sf with _ | s
    · simpa [resolveSectionName, orNull, usableB, targetOf] using
        htgt (targetOf ci)
    · by_cases hnil : s = []
      · subst hnil
        simpa [resolveSectionName, orNull, usableB, targetOf] using
          htgt (targetOf ci)
      · by_cases hN : s = noneLit
        · subst hN
          simpa [resolveSectionName, orNull, usableB, noneLit, targetOf] using
            htgt (targetOf ci)
        · simp [resolveSectionName, orNull, usableB, hnil, hN]
  · intro s u rest hp hq hu
    have hcond : ¬ (s.isProcessing = true ∨ s.updateQueue = []) := by
      simp [hp, hq]
    rw [processNextUpdate, if_neg hcond, hq]
    simp only [hu]
    refine ⟨by simp, by simp, ?_⟩
    by_cases hr : rest = []
    · simp [glowCount, hr]
    · simp [glowCount, hr, List.filter_append, isGlowTimer]

/-- Witness for C3 (amended): a `section` field of `'Intro'` wins over a
`target_section`, and with neither usable the diff result is used. -/
theorem resolveSectionName_priority_witness :
    resolveSectionName (some "Intro".data) (some ⟨some "Other".data⟩)
        [] "# A\nx".data =
      (if usableB (some "Intro".data) then some "Intro".data
       else if usableB (targetOf (some ⟨some "Other".data⟩)) then
         targetOf (some ⟨some "Other".data⟩)
       else detectNewSection [] "# A\nx".data) :=
  (resolveSectionName_priority (some "Intro".data) (some ⟨some "Other".data⟩)
    [] "# A\nx".data).1

/-! ## Claim C6 -/

lemma findHeaderLoop_go (search : List Char) (headers : List (List Char)) :
    ∀ (i : Nat) (b : Int) (best : Option Nat),
      b ≤ (findHeaderLoop search headers i b best).2 ∧
      (∀ j t, headers.get? j = some t →
        fuzzyScore search (normalizeL t) ≤
          (findHeaderLoop search headers i b best).2) ∧
      (findHeaderLoop search headers i b best = (best, b) ∨
        ∃ j t, headers.get? j = some t ∧
          findHeaderLoop search headers i b best =
            (some (i + j), fuzzyScore search (normalizeL t)) ∧
          b < fuzzyScore search (normalizeL t) ∧
          ∀ j' t', j' < j → headers.get? j' = some t' →
            fuzzyScore search (normalizeL t') <
              fuzzyScore search (normalizeL t)) := by
  induction headers with
  | nil =>
    intro i b best
    refine ⟨le_refl _, ?_, Or.inl rfl⟩
    intro j t hj
    simp at hj
  | cons h hs ih =>
    intro i b best
    by_cases hlt : b < fuzzyScore search (normalizeL h)
    · have hfl : findHeaderLoop search (h :: hs) i b best =
          findHeaderLoop search hs (i + 1)
            (fuzzyScore search (normalizeL h)) (some i) := by
        simp [findHeaderLoop, hlt]
      obtain ⟨ih1, ih2, ih3⟩ :=
        ih (i + 1) (fuzzyScore search (normalizeL h)) (some i)
      rw [hfl]
      refine ⟨le_trans (le_of_lt hlt) ih1, ?_, ?_⟩
      · intro j t hj
        cases j with
        | zero =>
          obtain rfl : h = t := by simpa using hj
          exact ih1
        | succ j => exact ih2 j t (by simpa using hj)
      · rcases ih3 with heq | ⟨j, t, hjt, heq, hblt, hearly⟩
        · refine Or.inr ⟨0, h, rfl, ?_, hlt, ?_⟩
          · rw [heq]; simp
          · intro j' t' hj' _
            omega
        · refine Or.inr ⟨j + 1, t, by simpa using hjt, ?_,
            lt_trans hlt hblt, ?_⟩
          · rw [heq]
            have harith : i + 1 + j = i + (j + 1) := by omega
            rw [harith]
          · intro j' t' hj'lt hj'
            cases j' with
            | zero =>
              obtain rfl : h = t' := by simpa using hj'
              exact hblt
            | succ j' => exact hearly j' t' (by omega) (by simpa using hj')
    · have hfl : findHeaderLoop search (h :: hs) i b best =
          findHeaderLoop search hs (i + 1) b best := by
        simp [findHeaderLoop, hlt]
      obtain ⟨ih1, ih2, ih3⟩ := ih (i + 1) b best
      rw [hfl]
      refine ⟨ih1, ?_, ?_⟩
      · intro j t hj
        cases j with
        | zero =>
          obtain rfl : h = t := by simpa using hj
          exact le_trans (not_lt.mp hlt) ih1
        | succ j => exact ih2 j t (by simpa using hj)
      · rcases ih3 with heq | ⟨j, t, hjt, heq, hblt, hearly⟩
        · exact Or.inl heq
        · refine Or.inr ⟨j + 1, t, by simpa using hjt, ?_, hblt, ?_⟩
          · rw [heq]
            have harith : i + 1 + j = i + (j + 1) := by omega
            rw [harith]
          · intro j' t' hj'lt hj'
            cases j' with
            | zero =>
              obtain rfl : h = t' := by simpa using hj'
              exact lt_of_le_of_lt (not_lt.mp hlt) hblt
            | succ j' => exact hearly j' t' (by omega) (by simpa using hj')

/-- Counterexample to C6 as stated: animating `alpha` over the rendered
headers `Alpha one` and `alpha two`, the `MarkdownRenderer.tsx` subscriber
highlights both headers (indices 0 and 1), not exactly one. -/
theorem rendererHighlighted_two_cex :
    rendererHighlighted "alpha".data ["Alpha one".data, "alpha two".data] =
      [0, 1] ∧
    (rendererHighlighted "alpha".data
        ["Alpha one".data, "alpha two".data]).length = 2 := by
  constructor
  · decide
  · decide

/-- Claim C6, amended: The `rendering.js` subscriber's `findHeaderElement`
selects at most one header by fuzzy matching on case-insensitive trimmed
text with precedence exact (100), then prefix either way (50), then
substring either way (10): a header is selected iff some candidate scores
above zero, the selected header's score is maximal, and every
earlier-in-document candidate scores strictly lower (ties keep the first).
The React `MarkdownRenderer` subscriber instead highlights every header
matching exact, prefix, or substring. -/
theorem findHeaderElement_selection (name : List Char)
    (hs : List (List Char)) :
    (findHeaderElement name hs = none ↔ name = [] ∨
      ∀ t ∈ hs, fuzzyScore (normalizeL name) (normalizeL t) ≤ 0) ∧
    (∀ i, findHeaderElement name hs = some i →
      ∃ t, hs.get? i = some t ∧
        0 < fuzzyScore (normalizeL name) (normalizeL t) ∧
        (∀ j tj, hs.get? j = some tj →
          fuzzyScore (normalizeL name) (normalizeL tj) ≤
            fuzzyScore (normalizeL name) (normalizeL t)) ∧
        (∀ j tj, j < i → hs.get? j = some tj →
          fuzzyScore (normalizeL name) (normalizeL tj) <
            fuzzyScore (normalizeL name) (normalizeL t))) ∧
    (∀ i, i ∈ rendererHighlighted name hs ↔
      ∃ t, hs.get? i = some t ∧
        rendererIsMatch (normalizeL name) (normalizeL t) = true) := by
  obtain ⟨h1, h2, h3⟩ := findHeaderLoop_go (normalizeL name) hs 0 (-1) none
  refine ⟨?_, ?_, ?_⟩
  · constructor
    · intro hnone
      by_cases hname : name = []
      · exact Or.inl hname
      · refine Or.inr ?_
        intro t ht
        obtain ⟨j, hj⟩ := List.mem_iff_get?.mp ht
        refine le_trans (h2 j t hj) ?_
        by_contra hpos
        push_neg at hpos
        rw [findHeaderElement, if_neg hname, if_pos hpos] at hnone
        rcases h3 with heq | ⟨j', t', _, heq, _, _⟩
        · rw [heq] at hpos
          exact absurd hpos (by norm_num)
        · rw [heq] at hnone
          exact absurd hnone (by simp)
    · intro hcase
      rcases hcase with hname | hall
      · simp [findHeaderElement, hname]
      · rw [findHeaderElement]
        by_cases hname : name = []
        · simp [hname]
        · rw [if_neg hname]
          have hle : (findHeaderLoop (normalizeL name) hs 0 (-1) none).2 ≤ 0 := by
            rcases h3 with heq | ⟨j, t, hjt, heq, _, _⟩
            · rw [heq]; norm_num
            · rw [heq]
              exact hall t (List.mem_iff_get?.mpr ⟨j, hjt⟩)
          rw [if_neg (not_lt.mpr hle)]
  · intro i hi
    by_cases hname : name = []
    · rw [findHeaderElement, if_pos hname] at hi
      exact absurd hi (by simp)
    · rw [findHeaderElement, if_neg hname] at hi
      by_cases hpos : 0 < (findHeaderLoop (normalizeL name) hs 0 (-1) none).2
      · rw [if_pos hpos] at hi
        rcases h3 with heq | ⟨j, t, hjt, heq, _, hearly⟩
        · rw [heq] at hpos
          exact absurd hpos (by norm_num)
        · rw [heq] at hi hpos
          simp only [Nat.zero_add] at hi
          obtain rfl : j = i := by simpa using hi
          refine ⟨t, hjt, hpos, ?_, ?_⟩
          · intro j' tj hj'
            have := h2 j' tj hj'
            rw [heq] at this
            exact this
          · intro j' tj hlt hj'
            exact hearly j' tj hlt hj'
      · rw [if_neg hpos] at hi
        exact absurd hi (by simp)
  · intro i
    constructor
    · intro hi
      rw [rendererHighlighted] at hi
      simp only [List.mem_filter, List.mem_range] at hi
      obtain ⟨_, hp⟩ := hi
      rcases hget : hs.get? i with _ | t
      · rw [hget] at hp
        simp at hp
      · rw [hget] at hp
        exact ⟨t, rfl, hp⟩
    · rintro ⟨t, hget, hmatch⟩
      have hlen : i < hs.length := by
        by_contra hge
        push_neg at hge
        rw [List.get?_eq_none.mpr hge] at hget
        exact absurd hget (by simp)
      rw [rendererHighlighted]
      simp only [List.mem_filter, List.mem_range]
      exact ⟨hlen, by rw [hget]; exact hmatch⟩

/-- Witness for C6 (amended): with headers `Alpha one`, `alpha two` and
animating name `alpha`, the selected header is index 0 — positive score,
maximal, first among ties. -/
theorem findHeaderElement_selection_witness :
    ∃ t, (["Alpha one".data, "alpha two".data] : List (List Char)).get? 0 =
        some t ∧
      0 < fuzzyScore (normalizeL "alpha".data) (normalizeL t) ∧
      (∀ j tj,
        (["Alpha one".data, "alpha two".data] : List (List Char)).get? j =
          some tj →
        fuzzyScore (normalizeL "alpha".data) (normalizeL tj) ≤
          fuzzyScore (normalizeL "alpha".data) (normalizeL t)) ∧
      (∀ j tj, j < 0 →
        (["Alpha one".data, "alpha two".data] : List (List Char)).get? j =
          some tj →
        fuzzyScore (normalizeL "alpha".data) (normalizeL tj) <
          fuzzyScore (normalizeL "alpha".data) (normalizeL t)) :=
  (findHeaderElement_selection "alpha".data
    ["Alpha one".data, "alpha two".data]).2.1 0 (by decide)

/-! ## Claim C1: equation and invariant lemmas -/

lemma ReplayInv_def (s : ClientState) :
    ReplayInv s ↔
      ((s.isProcessing = false → glowCount s = 0 ∧ s.animatingSection = none) ∧
        (s.isProcessing = true → glowCount s = 1 ∧ s.animatingSection ≠ none)) :=
  Iff.rfl

lemma glowCount_eq (s : ClientState) :
    glowCount s = (s.timers.filter isGlowTimer).length := rfl

lemma glowLen_append_nonglow (ts xs : List Timer)
    (hx : ∀ tm ∈ xs, isGlowTimer tm = false) :
    ((ts ++ xs).filter isGlowTimer).length = (ts.filter isGlowTimer).length := by
  rw [List.filter_append, List.length_append]
  have hnil : xs.filter isGlowTimer = [] := by
    rw [List.filter_eq_nil_iff]
    intro a ha
    simp [hx a ha]
  rw [hnil]
  simp

lemma glowLen_gapOpt (ts : List Timer) (b : Bool) (n : Nat) :
    ((ts ++ if b = true then ([] : List Timer)
        else [Timer.mk n TimerKind.gap]).filter
        isGlowTimer).length = (ts.filter isGlowTimer).length := by
  apply glowLen_append_nonglow
  intro tm htm
  rcases b with _ | _ <;> simp at htm
  · rw [htm]
    rfl

lemma length_filter_eraseIdx {α : Type} (p : α → Bool) :
    ∀ (l : List α) (i : Nat) (a : α), l.get? i = some a →
      (l.filter p).length =
        ((l.eraseIdx i).filter p).length + (if p a then 1 else 0) := by
  intro l
  induction l with
  | nil => intro i a h; simp at h
  | cons x xs ih =>
    intro i a h
    cases i with
    | zero =>
      have hxa : x = a := by simpa using h
      subst hxa
      by_cases hp : p x <;>
        simp [List.eraseIdx, List.filter_cons, hp]
    | succ i =>
      have h' : xs.get? i = some a := by simpa using h
      by_cases hp : p x <;>
        simp [List.eraseIdx, List.filter_cons, hp, ih i a h']
      all_goals omega

lemma processNextUpdate_noop (s : ClientState)
    (h : s.isProcessing = true ∨ s.updateQueue = []) :
    processNextUpdate s = s := by
  rw [processNextUpdate, if_pos h]

lemma processNextUpdate_drain_some (s : ClientState) (u : UpdateQueueItem)
    (rest : List UpdateQueueItem) (sec : List Char)
    (hp : s.isProcessing = false) (hq : s.updateQueue = u :: rest)
    (hsec : u.sectionName = some sec) (hne : sec ≠ []) :
    processNextUpdate s =
      { s with
        updateQueue := rest
        isProcessing := true
        markdownContent := u.newContent
        animatingSection := some sec
        timers := s.timers ++ [⟨s.now + 500, TimerKind.glowEnd u⟩] } := by
  have hc : ¬ (s.isProcessing = true ∨ s.updateQueue = []) := by
    simp [hp, hq]
  rw [processNextUpdate, if_neg hc, hq]
  simp only [hsec, if_neg hne]

lemma processNextUpdate_drain_empty (s : ClientState) (u : UpdateQueueItem)
    (rest : List UpdateQueueItem)
    (hp : s.isProcessing = false) (hq : s.updateQueue = u :: rest)
    (hsec : u.sectionName = some []) :
    processNextUpdate s =
      { s with
        updateQueue := rest
        isProcessing := false
        markdownContent := u.newContent
        displayedContent := u.newContent
        timers :=
          s.timers ++
            if rest = [] then [] else [⟨s.now + 100, TimerKind.gap⟩] } := by
  have hc : ¬ (s.isProcessing = true ∨ s.updateQueue = []) := by
    simp [hp, hq]
  rw [processNextUpdate, if_neg hc, hq]
  simp [hsec]

lemma processNextUpdate_drain_none (s : ClientState) (u : UpdateQueueItem)
    (rest : List UpdateQueueItem)
    (hp : s.isProcessing = false) (hq : s.updateQueue = u :: rest)
    (hsec : u.sectionName = none) :
    processNextUpdate s =
      { s with
        updateQueue := rest
        isProcessing := false
        markdownContent := u.newContent
        displayedContent := u.newContent
        timers :=
          s.timers ++
            if rest = [] then [] else [⟨s.now + 100, TimerKind.gap⟩] } := by
  have hc : ¬ (s.isProcessing = true ∨ s.updateQueue = []) := by
    simp [hp, hq]
  rw [processNextUpdate, if_neg hc, hq]
  simp only [hsec]

lemma fireGlowEnd_eq (s : ClientState) (u : UpdateQueueItem) :
    fireGlowEnd s u =
      { s with
        animatingSection := none
        isProcessing := false
        displayedContent := u.newContent
        timers :=
          s.timers ++
            if s.updateQueue = [] then []
            else [⟨s.now + 100, TimerKind.gap⟩] } := rfl

lemma applyEvent_message (s : ClientState) (t : Nat) (msg : Option SSEData) :
    applyEvent s (ClientEvent.message t msg) =
      onMessage { s with now := t } msg t := rfl

lemma applyEvent_fire_miss (s : ClientState) (i : Nat)
    (h : s.timers.get? i = none) :
    applyEvent s (ClientEvent.fire i) = s := by
  rw [applyEvent]
  simp only [h]

lemma applyEvent_fire_glow (s : ClientState) (i : Nat) (t : Nat)
    (u : UpdateQueueItem)
    (h : s.timers.get? i = some ⟨t, TimerKind.glowEnd u⟩) :
    applyEvent s (ClientEvent.fire i) =
      fireGlowEnd { s with timers := s.timers.eraseIdx i, now := t } u := by
  rw [applyEvent]
  simp only [h]

lemma applyEvent_fire_gap (s : ClientState) (i : Nat) (t : Nat)
    (h : s.timers.get? i = some ⟨t, TimerKind.gap⟩) :
    applyEvent s (ClientEvent.fire i) =
      processNextUpdate { s with timers := s.timers.eraseIdx i, now := t } := by
  rw [applyEvent]
  simp only [h]

lemma ReplayInv_congr (s s' : ClientState)
    (hp : s'.isProcessing = s.isProcessing)
    (ha : s'.animatingSection = s.animatingSection)
    (ht : (s'.timers.filter isGlowTimer).length =
      (s.timers.filter isGlowTimer).length)
    (h : ReplayInv s) : ReplayInv s' := by
  rw [ReplayInv_def] at h ⊢
  rw [hp, ha, glowCount_eq, ht, ← glowCount_eq]
  exact h

lemma processNextUpdate_inv (s : ClientState) (h : ReplayInv s) :
    ReplayInv (processNextUpdate s) := by
  by_cases hc : s.isProcessing = true ∨ s.updateQueue = []
  · rw [processNextUpdate_noop s hc]
    exact h
  · obtain ⟨hp, hq⟩ := not_or.mp hc
    have hp' : s.isProcessing = false := by simpa using hp
    have h0 : glowCount s = 0 := (((ReplayInv_def s).mp h).1 hp').1
    have han : s.animatingSection = none := (((ReplayInv_def s).mp h).1 hp').2
    rw [glowCount_eq] at h0
    rcases hqq : s.updateQueue with _ | ⟨u, rest⟩
    · exact absurd hqq hq
    rcases hsec : u.sectionName with _ | sec
    · rw [processNextUpdate_drain_none s u rest hp' hqq hsec, ReplayInv_def]
      refine ⟨fun _ => ⟨?_, by simpa using han⟩, fun habs => by simp at habs⟩
      by_cases hr : rest = [] <;>
        simp [glowCount_eq, hr, List.filter_append, isGlowTimer] <;>
        simpa using h0
    · by_cases hne : sec = []
      · subst hne
        rw [processNextUpdate_drain_empty s u rest hp' hqq hsec, ReplayInv_def]
        refine ⟨fun _ => ⟨?_, by simpa using han⟩, fun habs => by simp at habs⟩
        by_cases hr : rest = [] <;>
          simp [glowCount_eq, hr, List.filter_append, isGlowTimer] <;>
          simpa using h0
      · rw [processNextUpdate_drain_some s u rest sec hp' hqq hsec hne,
          ReplayInv_def]
        refine ⟨fun habs => by simp at habs, fun _ => ⟨?_, by simp⟩⟩
        simp [glowCount_eq, List.filter_append, isGlowTimer]
        simpa using h0

lemma onMessage_inv (s : ClientState) (msg : Option SSEData) (ts : Nat)
    (h : ReplayInv s) : ReplayInv (onMessage s msg ts) := by
  rcases msg with _ | d
  · exact h
  · rw [onMessage]
    by_cases h1 : d.type = "init".data
    · rw [if_pos h1]
      exact ReplayInv_congr s _ (by simp) (by simp) (by simp) h
    rw [if_neg h1]
    by_cases h2 : d.type = "file_updated".data
    · rw [if_pos h2]
      simp only [handleFileUpdated, scheduleFileUpdate]
      apply processNextUpdate_inv
      exact ReplayInv_congr s _ (by simp) (by simp) (by simp) h
    rw [if_neg h2]
    by_cases h3 : d.type = "pending_update".data
    · rw [if_pos h3]
      rcases hp2 : d.pending with _ | (l | p) <;> simp only [hp2]
      · exact h
      · exact h
      · exact ReplayInv_congr s _ (by simp) (by simp) (by simp) h
    rw [if_neg h3]
    by_cases h4 : d.type = "pending_resolved".data
    · rw [if_pos h4]
      exact ReplayInv_congr s _ (by simp) (by simp) (by simp) h
    · rw [if_neg h4]
      exact h

lemma applyEvent_inv (s : ClientState) (e : ClientEvent) (h : ReplayInv s) :
    ReplayInv (applyEvent s e) := by
  cases e with
  | message t msg =>
    rw [applyEvent_message]
    apply onMessage_inv
    exact ReplayInv_congr s _ (by simp) (by simp) (by simp) h
  | fire i =>
    rcases hg : s.timers.get? i with _ | tm
    · rw [applyEvent_fire_miss s i hg]
      exact h
    · rcases tm with ⟨t, k⟩
      rcases k with u | _
      · -- animation-end timer: only pending during a drain
        have hglow : isGlowTimer ⟨t, TimerKind.glowEnd u⟩ = true := rfl
        have herase :=
          length_filter_eraseIdx isGlowTimer s.timers i _ hg
        rw [if_pos hglow] at herase
        have hproc : s.isProcessing = true := by
          by_contra hfalse
          have hp' : s.isProcessing = false := by simpa using hfalse
          have h0 : glowCount s = 0 := (((ReplayInv_def s).mp h).1 hp').1
          rw [glowCount_eq] at h0
          omega
        have h1 : glowCount s = 1 := (((ReplayInv_def s).mp h).2 hproc).1
        rw [glowCount_eq] at h1
        have h0' : ((s.timers.eraseIdx i).filter isGlowTimer).length = 0 := by
          omega
        rw [applyEvent_fire_glow s i t u hg, fireGlowEnd_eq, ReplayInv_def]
        refine ⟨fun _ => ⟨?_, by simp⟩, fun habs => by simp at habs⟩
        by_cases hr : s.updateQueue = [] <;>
          simp [glowCount_eq, hr, List.filter_append, isGlowTimer] <;>
          simpa using h0'
      · -- gap timer: erasing it leaves the animation timers untouched
        have hgap : isGlowTimer ⟨t, TimerKind.gap⟩ = false := rfl
        have herase :=
          length_filter_eraseIdx isGlowTimer s.timers i _ hg
        rw [if_neg (by simp [hgap])] at herase
        rw [applyEvent_fire_gap s i t hg]
        apply processNextUpdate_inv
        exact ReplayInv_congr s _ (by simp) (by simp) (by simpa using herase.symm) h

lemma runEvents_inv (es : List ClientEvent) :
    ∀ s, ReplayInv s → ReplayInv (runEvents s es) := by
  induction es with
  | nil => intro s h; exact h
  | cons e es ih =>
    intro s h
    have : runEvents s (e :: es) = runEvents (applyEvent s e) es := rfl
    rw [this]
    exact ih _ (applyEvent_inv s e h)

lemma processNextUpdate_queue_shape (s : ClientState) :
    ∃ k, k ≤ 1 ∧ (processNextUpdate s).updateQueue = s.updateQueue.drop k ∧
      (k = 1 → s.isProcessing = false) := by
  by_cases hc : s.isProcessing = true ∨ s.updateQueue = []
  · exact ⟨0, by omega, by rw [processNextUpdate_noop s hc]; simp, by omega⟩
  · obtain ⟨hp, hq⟩ := not_or.mp hc
    have hp' : s.isProcessing = false := by simpa using hp
    rcases hqq : s.updateQueue with _ | ⟨u, rest⟩
    · exact absurd hqq hq
    refine ⟨1, le_refl _, ?_, fun _ => hp'⟩
    rcases hsec : u.sectionName with _ | sec
    · rw [processNextUpdate_drain_none s u rest hp' hqq hsec]
      simp [hqq]
    · by_cases hne : sec = []
      · subst hne
        rw [processNextUpdate_drain_empty s u rest hp' hqq hsec]
        simp [hqq]
      · rw [processNextUpdate_drain_some s u rest sec hp' hqq hsec hne]
        simp [hqq]

lemma handleFileUpdated_eq (s : ClientState) (d : SSEData) (ts : Nat) :
    handleFileUpdated s d ts =
      scheduleFileUpdate s
        (if s.displayedContent = [] then s.markdownContent
          else s.displayedContent)
        ((orNull d.content).getD [])
        (resolveSectionName d.sectionField d.change_info
          (if s.displayedContent = [] then s.markdownContent
            else s.displayedContent)
          ((orNull d.content).getD []))
        ts := rfl

lemma scheduleFileUpdate_queue_shape (s : ClientState) (oldC newC : List Char)
    (sec : Option (List Char)) (ts : Nat) :
    ∃ k, k ≤ 1 ∧
      (scheduleFileUpdate s oldC newC sec ts).updateQueue =
        (s.updateQueue ++ [UpdateQueueItem.mk oldC newC sec ts]).drop k ∧
      (k = 1 → s.isProcessing = false) := by
  rw [scheduleFileUpdate]
  obtain ⟨k, h1, h2, h3⟩ := processNextUpdate_queue_shape
    { s with
      updateQueue := s.updateQueue ++ [UpdateQueueItem.mk oldC newC sec ts] }
  exact ⟨k, h1, by simpa using h2, by simpa using h3⟩

lemma handleFileUpdated_processing (s : ClientState) (d : SSEData) (ts : Nat)
    (hp : s.isProcessing = true) :
    (handleFileUpdated s d ts).markdownContent = s.markdownContent ∧
    (handleFileUpdated s d ts).animatingSection = s.animatingSection ∧
    (handleFileUpdated s d ts).isProcessing = true ∧
    ∃ arr, (handleFileUpdated s d ts).updateQueue = s.updateQueue ++ arr := by
  rw [handleFileUpdated_eq, scheduleFileUpdate, processNextUpdate_noop]
  · exact ⟨by simp, by simp, by simpa using hp, ⟨[_], rfl⟩⟩
  · exact Or.inl (by simpa using hp)

/-- Claim C1: The Client Replay Queue drains strictly serially in arrival
order: from any state satisfying the replay invariant, the invariant is
preserved over every stimulus sequence (so at most one animation-end timer
is ever pending and a single section is animating exactly during a drain);
while a drain's animation is in progress, every `file_updated` message or
non-animation timer leaves the displayed content and the animation
untouched and only appends the new event at the tail of the queue; the
animation window ends only by its own timer, which performs no content swap
and no drain; and the queue changes only by appending at the tail and by
dropping the head, where dropping the head (the start of the next drain)
happens only when no drain is in progress. -/
theorem replayQueue_serial (s : ClientState) (e : ClientEvent)
    (hInv : ReplayInv s) :
    ReplayInv (applyEvent s e) ∧
    (∀ es, ReplayInv (runEvents s es)) ∧
    (s.isProcessing = true → isReplayEventB e = true →
      firesGlowEndB s e = false →
      (applyEvent s e).markdownContent = s.markdownContent ∧
      (applyEvent s e).animatingSection = s.animatingSection ∧
      (applyEvent s e).isProcessing = true ∧
      ∃ arr, (applyEvent s e).updateQueue = s.updateQueue ++ arr) ∧
    (firesGlowEndB s e = true →
      (applyEvent s e).markdownContent = s.markdownContent ∧
      (applyEvent s e).animatingSection = none ∧
      (applyEvent s e).isProcessing = false ∧
      (applyEvent s e).updateQueue = s.updateQueue) ∧
    (∃ arr k, arr.length ≤ 1 ∧ k ≤ 1 ∧
      (applyEvent s e).updateQueue = (s.updateQueue ++ arr).drop k ∧
      (k = 1 → s.isProcessing = false)) := by
  refine ⟨applyEvent_inv s e hInv, fun es => runEvents_inv es s hInv,
    ?_, ?_, ?_⟩
  · intro hp hrep hnofire
    cases e with
    | message t msg =>
      rcases msg with _ | d
      · simp [isReplayEventB] at hrep
      · have htype : d.type = "file_updated".data := by
          simpa [isReplayEventB] using hrep
        rw [applyEvent_message, onMessage,
          if_neg (by rw [htype]; decide), if_pos htype]
        obtain ⟨hm, ha, hip, arr, harr⟩ :=
          handleFileUpdated_processing { s with now := t } d t
            (by simpa using hp)
        exact ⟨hm, ha, hip, ⟨arr, harr⟩⟩
    | fire i =>
      rcases hg : s.timers.get? i with _ | tm
      · rw [applyEvent_fire_miss s i hg]
        exact ⟨rfl, rfl, hp, ⟨[], by simp⟩⟩
      · rcases tm with ⟨t, k⟩
        rcases k with u | _
        · exfalso
          have hg' : s.timers[i]? = some ⟨t, TimerKind.glowEnd u⟩ := by
            simpa using hg
          revert hnofire
          simp [firesGlowEndB, hg', isGlowTimer]
        · rw [applyEvent_fire_gap s i t hg,
            processNextUpdate_noop _ (Or.inl (by simpa using hp))]
          exact ⟨rfl, rfl, hp, ⟨[], by simp⟩⟩
  · intro hfire
    cases e with
    | message t msg => simp [firesGlowEndB] at hfire
    | fire i =>
      rcases hg : s.timers.get? i with _ | tm
      · have hg' : s.timers[i]? = none := by simpa using hg
        simp [firesGlowEndB, hg'] at hfire
      · rcases tm with ⟨t, k⟩
        rcases k with u | _
        · rw [applyEvent_fire_glow s i t u hg, fireGlowEnd_eq]
          exact ⟨by simp, by simp, by simp, by simp⟩
        · have hg' : s.timers[i]? = some ⟨t, TimerKind.gap⟩ := by
            simpa using hg
          simp [firesGlowEndB, hg', isGlowTimer] at hfire
  · cases e with
    | message t msg =>
      rcases msg with _ | d
      · exact ⟨[], 0, by simp, by omega, by simp [applyEvent_message, onMessage],
          by omega⟩
      · rw [applyEvent_message, onMessage]
        by_cases h1 : d.type = "init".data
        · rw [if_pos h1]
          exact ⟨[], 0, by simp, by omega, by simp, by omega⟩
        rw [if_neg h1]
        by_cases h2 : d.type = "file_updated".data
        · rw [if_pos h2, handleFileUpdated_eq]
          obtain ⟨k, hk1, hk2, hk3⟩ := scheduleFileUpdate_queue_shape
            { s with now := t }
            (if ({ s with now := t } : ClientState).displayedContent = []
              then ({ s with now := t } : ClientState).markdownContent
              else ({ s with now := t } : ClientState).displayedContent)
            ((orNull d.content).getD [])
            (resolveSectionName d.sectionField d.change_info
              (if ({ s with now := t } : ClientState).displayedContent = []
                then ({ s with now := t } : ClientState).markdownContent
                else ({ s with now := t } : ClientState).displayedContent)
              ((orNull d.content).getD []))
            t
          exact ⟨[_], k, by simp, hk1, by simpa using hk2,
            fun hk => by simpa using hk3 hk⟩
        rw [if_neg h2]
        by_cases h3 : d.type = "pending_update".data
        · rw [if_pos h3]
          rcases hp2 : d.pending with _ | (l | p) <;> simp only [hp2]
          · exact ⟨[], 0, by simp, by omega, by simp, by omega⟩
          · exact ⟨[], 0, by simp, by omega, by simp, by omega⟩
          · exact ⟨[], 0, by simp, by omega, by simp, by omega⟩
        rw [if_neg h3]
        by_cases h4 : d.type = "pending_resolved".data
        · rw [if_pos h4]
          exact ⟨[], 0, by simp, by omega, by simp, by omega⟩
        · rw [if_neg h4]
          exact ⟨[], 0, by simp, by omega, by simp, by omega⟩
    | fire i =>
      rcases hg : s.timers.get? i with _ | tm
      · rw [applyEvent_fire_miss s i hg]
        exact ⟨[], 0, by simp, by omega, by simp, by omega⟩
      · rcases tm with ⟨t, k⟩
        rcases k with u | _
        · rw [applyEvent_fire_glow s i t u hg, fireGlowEnd_eq]
          exact ⟨[], 0, by simp, by omega, by simp, by omega⟩
        · rw [applyEvent_fire_gap s i t hg]
          obtain ⟨k, hk1, hk2, hk3⟩ := processNextUpdate_queue_shape
            { s with timers := s.timers.eraseIdx i, now := t }
          exact ⟨[], k, by simp, hk1, by simpa using hk2,
            fun hk => by simpa using hk3 hk⟩

/-- Witness for C1: the invariant holds after firing a (non-existent) timer
from the freshly mounted subscriber state. -/
theorem replayQueue_serial_witness :
    ReplayInv (applyEvent initialClient (ClientEvent.fire 0)) :=
  (replayQueue_serial initialClient (ClientEvent.fire 0) (by decide)).1

/-! ## Claim C2 -/

/-- Counterexample to C2 as stated: after the first drain's animation window
ends at 500 ms with event `B` still queued (gap timer pending for 600 ms),
the arrival of event `C` at 550 ms triggers the drain of `B` immediately —
`B` is animating at 550 ms, only 50 ms after the window ended, so the next
drain does not wait for the 100 ms inter-item gap. -/
theorem replayGap_cex :
    validTraceB initialClient gapTrace = true ∧
    (runEvents initialClient (gapTrace.take 3)).now = 500 ∧
    (runEvents initialClient (gapTrace.take 3)).animatingSection = none ∧
    (runEvents initialClient (gapTrace.take 3)).isProcessing = false ∧
    (runEvents initialClient (gapTrace.take 3)).timers =
      [Timer.mk 600 TimerKind.gap] ∧
    (runEvents initialClient gapTrace).now = 550 ∧
    (runEvents initialClient gapTrace).animatingSection = some "B".data ∧
    (runEvents initialClient gapTrace).isProcessing = true := by
  refine ⟨by decide, by decide, by decide, by decide, by decide, by decide,
    by decide, by decide⟩

/-- Claim C2, amended: For every drained ChangeEvent: the displayed document
content is swapped to the event's new body in the drain step, before any
animation; when a changed non-empty heading is known, the drain enters the
animating state and schedules the animation-end timer a fixed 500 ms ahead;
when no heading is known (the name is null or the empty string, which
`if (update.sectionName)` treats as falsy), the drain finishes at once,
recording the new content as the displayed baseline; firing the
animation-end timer records the drained event's content as the baseline,
ends the animation, and, when more events are queued, schedules a 100 ms gap
timer; the gap timer's expiry re-runs the drain loop — but the next drain
can also begin earlier, when a new event arrives before the gap elapses
(see the counterexample). -/
theorem replayDrain_step (s : ClientState) (u : UpdateQueueItem)
    (rest : List UpdateQueueItem)
    (hp : s.isProcessing = false) (hq : s.updateQueue = u :: rest) :
    (processNextUpdate s).markdownContent = u.newContent ∧
    (∀ sec, u.sectionName = some sec → sec ≠ [] →
      (processNextUpdate s).animatingSection = some sec ∧
      (processNextUpdate s).isProcessing = true ∧
      (processNextUpdate s).timers =
        s.timers ++ [Timer.mk (s.now + 500) (TimerKind.glowEnd u)]) ∧
    (u.sectionName = none ∨ u.sectionName = some [] →
      (processNextUpdate s).isProcessing = false ∧
      (processNextUpdate s).displayedContent = u.newContent ∧
      (processNextUpdate s).timers =
        s.timers ++
          if rest = [] then [] else [Timer.mk (s.now + 100) TimerKind.gap]) ∧
    (∀ (s2 : ClientState) (i : Nat) (t : Nat),
      s2.timers.get? i = some (Timer.mk t (TimerKind.glowEnd u)) →
      (applyEvent s2 (ClientEvent.fire i)).displayedContent = u.newContent ∧
      (applyEvent s2 (ClientEvent.fire i)).animatingSection = none ∧
      (applyEvent s2 (ClientEvent.fire i)).isProcessing = false ∧
      (applyEvent s2 (ClientEvent.fire i)).now = t ∧
      (applyEvent s2 (ClientEvent.fire i)).timers =
        s2.timers.eraseIdx i ++
          if s2.updateQueue = [] then []
          else [Timer.mk (t + 100) TimerKind.gap]) ∧
    (∀ (s2 : ClientState) (i : Nat) (t : Nat),
      s2.timers.get? i = some (Timer.mk t TimerKind.gap) →
      applyEvent s2 (ClientEvent.fire i) =
        processNextUpdate
          { s2 with timers := s2.timers.eraseIdx i, now := t }) := by
  refine ⟨?_, ?_, ?_, ?_, ?_⟩
  · rcases hsec : u.sectionName with _ | sec
    · rw [processNextUpdate_drain_none s u rest hp hq hsec]
    · by_cases hne : sec = []
      · subst hne
        rw [processNextUpdate_drain_empty s u rest hp hq hsec]
      · rw [processNextUpdate_drain_some s u rest sec hp hq hsec hne]
  · intro sec hsec hne
    rw [processNextUpdate_drain_some s u rest sec hp hq hsec hne]
    exact ⟨rfl, rfl, rfl⟩
  · intro hsec
    rcases hsec with hsec | hsec
    · rw [processNextUpdate_drain_none s u rest hp hq hsec]
      exact ⟨rfl, rfl, rfl⟩
    · rw [processNextUpdate_drain_empty s u rest hp hq hsec]
      exact ⟨rfl, rfl, rfl⟩
  · intro s2 i t hg
    rw [applyEvent_fire_glow s2 i t u hg, fireGlowEnd_eq]
    exact ⟨by simp, by simp, by simp, by simp, by simp⟩
  · intro s2 i t hg
    exact applyEvent_fire_gap s2 i t hg

/-- Witness for C2 (amended): draining the concrete queued item swaps the
displayed content to its new body. -/
theorem replayDrain_step_witness :
    (processNextUpdate drainWitnessState).markdownContent =
      drainWitnessItem.newContent :=
  (replayDrain_step drainWitnessState drainWitnessItem [] (by decide)
    (by decide)).1

/-! ## Claim C7 -/

/-- Claim C7: For every chunk containing a recognized hedge or retraction
phrase, the Match Classifier returns `Uncertain` regardless of any
similarity score or threshold, and no document rewrite is auto-committed
for that chunk. (Classifier modelled from the spec, see `classify`.) -/
theorem hedge_forces_uncertain (tConfident tFloor : Rat) (chunk : List Char)
    (scored : List (List Char × Rat)) (inferredHeading : List Char)
    (h : containsHedge chunk = true) :
    classify tConfident tFloor chunk scored inferredHeading =
      Decision.uncertain "hedge/retraction language detected".data
        ((bestOf scored).map Prod.fst) ((bestOf scored).map Prod.snd) ∧
    autoCommits (classify tConfident tFloor chunk scored inferredHeading) =
      false := by
  rw [classify, if_pos h]
  exact ⟨rfl, rfl⟩

/-- Witness for C7: the hedged chunk `Maybe we should use TikTok instead`
yields `Uncertain` even with a similarity of 0.8 ≥ the 0.65 threshold. -/
theorem hedge_forces_uncertain_witness :
    classify (65 / 100) (3 / 10) "Maybe we should use TikTok instead".data
        [("Marketing".data, (8 / 10 : Rat))] "New Section".data =
      Decision.uncertain "hedge/retraction language detected".data
        ((bestOf [("Marketing".data, (8 / 10 : Rat))]).map Prod.fst)
        ((bestOf [("Marketing".data, (8 / 10 : Rat))]).map Prod.snd) ∧
    autoCommits
        (classify (65 / 100) (3 / 10)
          "Maybe we should use TikTok instead".data
          [("Marketing".data, (8 / 10 : Rat))] "New Section".data) =
      false :=
  hedge_forces_uncertain (65 / 100) (3 / 10)
    "Maybe we should use TikTok instead".data
    [("Marketing".data, (8 / 10 : Rat))] "New Section".data (by decide)

/-! ## Claim C8 -/

/-- Claim C8: An SSE message whose payload does not parse leaves the
subscriber's entire state — displayed content, baseline, pending list,
transcript, replay queue, drain flag, animation, timers — unchanged; the
event is dropped and the stream handler keeps running, so any following
events are processed exactly as they would be from the same state. -/
theorem malformed_event_dropped (s : ClientState) (t : Nat)
    (es : List ClientEvent) :
    (applyEvent s (ClientEvent.message t none)).markdownContent =
      s.markdownContent ∧
    (applyEvent s (ClientEvent.message t none)).displayedContent =
      s.displayedContent ∧
    (applyEvent s (ClientEvent.message t none)).pendingUpdates =
      s.pendingUpdates ∧
    (applyEvent s (ClientEvent.message t none)).transcript = s.transcript ∧
    (applyEvent s (ClientEvent.message t none)).updateQueue =
      s.updateQueue ∧
    (applyEvent s (ClientEvent.message t none)).isProcessing =
      s.isProcessing ∧
    (applyEvent s (ClientEvent.message t none)).animatingSection =
      s.animatingSection ∧
    (applyEvent s (ClientEvent.message t none)).timers = s.timers ∧
    runEvents s (ClientEvent.message t none :: es) =
      runEvents { s with now := t } es :=
  ⟨rfl, rfl, rfl, rfl, rfl, rfl, rfl, rfl, rfl⟩

/-! ## Claim C9 -/

/-- Claim C9: A `pending_update` event appends the carried PendingUpdate at
the end of the pending list; a `pending_resolved` event removes exactly the
entries whose id equals the event's `pending_id`, keeping the remaining
entries in order (a sublist); neither event touches the displayed content,
the baseline, the transcript, or the replay queue state. -/
theorem pending_events_frame (s : ClientState) (t : Nat) (d : SSEData) :
    (∀ p, d.type = "pending_update".data →
      d.pending = some (PendingField.single p) →
      (applyEvent s (ClientEvent.message t (some d))).pendingUpdates =
        s.pendingUpdates ++ [p] ∧
      (applyEvent s (ClientEvent.message t (some d))).markdownContent =
        s.markdownContent ∧
      (applyEvent s (ClientEvent.message t (some d))).displayedContent =
        s.displayedContent ∧
      (applyEvent s (ClientEvent.message t (some d))).transcript =
        s.transcript ∧
      (applyEvent s (ClientEvent.message t (some d))).updateQueue =
        s.updateQueue ∧
      (applyEvent s (ClientEvent.message t (some d))).isProcessing =
        s.isProcessing ∧
      (applyEvent s (ClientEvent.message t (some d))).animatingSection =
        s.animatingSection ∧
      (applyEvent s (ClientEvent.message t (some d))).timers = s.timers) ∧
    (∀ pid, d.type = "pending_resolved".data → d.pending_id = some pid →
      ((applyEvent s (ClientEvent.message t (some d))).pendingUpdates).Sublist
        s.pendingUpdates ∧
      (∀ q, q ∈ (applyEvent s (ClientEvent.message t (some d))).pendingUpdates
        ↔ q ∈ s.pendingUpdates ∧ q.id ≠ pid) ∧
      (applyEvent s (ClientEvent.message t (some d))).markdownContent =
        s.markdownContent ∧
      (applyEvent s (ClientEvent.message t (some d))).displayedContent =
        s.displayedContent ∧
      (applyEvent s (ClientEvent.message t (some d))).transcript =
        s.transcript ∧
      (applyEvent s (ClientEvent.message t (some d))).updateQueue =
        s.updateQueue ∧
      (applyEvent s (ClientEvent.message t (some d))).isProcessing =
        s.isProcessing ∧
      (applyEvent s (ClientEvent.message t (some d))).animatingSection =
        s.animatingSection ∧
      (applyEvent s (ClientEvent.message t (some d))).timers = s.timers) := by
  constructor
  · intro p htype hpend
    rw [applyEvent_message, onMessage, if_neg (by rw [htype]; decide),
      if_neg (by rw [htype]; decide), if_pos htype]
    simp only [hpend]
    exact ⟨by simp, by simp, by simp, by simp, by simp, by simp, by simp,
      by simp⟩
  · intro pid htype hpid
    rw [applyEvent_message, onMessage, if_neg (by rw [htype]; decide),
      if_neg (by rw [htype]; decide), if_neg (by rw [htype]; decide),
      if_pos htype]
    refine ⟨?_, ?_, by simp, by simp, by simp, by simp, by simp, by simp,
      by simp⟩
    · simp only [ClientState.pendingUpdates]
      exact List.filter_sublist _
    · intro q
      simp only [ClientState.pendingUpdates, List.mem_filter, hpid]
      constructor
      · rintro ⟨hq, hdec⟩
        refine ⟨hq, ?_⟩
        intro hid
        rw [hid] at hdec
        simp at hdec
      · rintro ⟨hq, hid⟩
        refine ⟨hq, ?_⟩
        simpa using fun hc => hid hc

/-- Witness for C9: appending a concrete pending update to a fresh state. -/
theorem pending_events_frame_witness :
    (applyEvent initialClient (ClientEvent.message 5
        (some (SSEData.mk "pending_update".data none none
          (some (PendingField.single (PendingUpdate.mk "p1".data "hi".data)))
          none none none)))).pendingUpdates =
      initialClient.pendingUpdates ++ [PendingUpdate.mk "p1".data "hi".data] :=
  ((pending_events_frame initialClient 5
      (SSEData.mk "pending_update".data none none
        (some (PendingField.single (PendingUpdate.mk "p1".data "hi".data)))
        none none none)).1
    (PendingUpdate.mk "p1".data "hi".data) (by decide) (by decide)).1

/-! ## Claim C10 -/

/-- Claim C10: A completed recording session that captured at least one data
blob increments the chunk counter unconditionally, but submits the
assembled blob to the audio endpoint iff its size exceeds 1000 bytes — a
blob of 1000 bytes or less is discarded with no request — and the capture
buffer is cleared either way. -/
theorem audio_blob_threshold (s : RecorderState) (h : s.audioChunks ≠ []) :
    (mediaRecorderOnStop s).chunkCounter = s.chunkCounter + 1 ∧
    (1000 < s.audioChunks.sum →
      (mediaRecorderOnStop s).submitted =
        s.submitted ++ [(s.audioChunks.sum, s.chunkCounter + 1)]) ∧
    (s.audioChunks.sum ≤ 1000 →
      (mediaRecorderOnStop s).submitted = s.submitted) ∧
    (mediaRecorderOnStop s).audioChunks = [] := by
  rw [mediaRecorderOnStop, if_neg h]
  refine ⟨by simp, ?_, ?_, by simp⟩
  · intro hgt
    simp only []
    rw [if_pos hgt]
  · intro hle
    simp only []
    rw [if_neg (by omega)]
    simp

/-- Witness for C10: two captured blobs totalling 1100 bytes bump the chunk
counter to 1. -/
theorem audio_blob_threshold_witness :
    (mediaRecorderOnStop (RecorderState.mk [500, 600] 0 [])).chunkCounter =
      0 + 1 :=
  (audio_blob_threshold (RecorderState.mk [500, 600] 0 []) (by decide)).1

end LatentLoop
